import Mathlib

/-!
Verification of the geographic-grid projection and raster-composition engine
of caltopo_show_coverage.py.  The definitions below are a shallow embedding of
the source: Python floats are modelled by exact rationals (every cumulative
offset in the used table lies at distance at least 21/4000 from every integer,
so binary-float and exact-rational truncation agree on the whole table),
Python dicts with restricted key ranges are modelled by Option-valued
functions, and Python `int()` by truncation toward zero.
-/

namespace Tiles

/-- Python int() applied to a rational: truncation toward zero. -/
def truncQ (q : ℚ) : ℤ := if q < 0 then ⌈q⌉ else ⌊q⌋

/-- Slope coefficient for grid height (source: m=0.07317). -/
def m : ℚ := 0.07317

/-- Intercept coefficient for grid height (source: b=14.63415). -/
def b : ℚ := 14.63415

/-- Width of a grid cell, in pixels (source: gw=27.7778). -/
def gw : ℚ := 27.7778

/-- Grid height in pixels as a function of gy (source: phd[gy]=(-m*gy)+b,
built for gy in range(-200,1)). -/
def phd (gy : ℤ) : ℚ := -m * gy + b

/-- Cumulative offset accumulation, indexed from the southern boundary:
pyfdAux n models pyfd[-200+n]
(source: pyfd[-200]=-phd[-200]; pyfd[gy]=pyfd[gy-1]-phd[gy]). -/
def pyfdAux : ℕ → ℚ
  | 0 => -phd (-200)
  | n + 1 => pyfdAux n - phd (-200 + (n + 1 : ℕ))

/-- The dict pyfd, with its key range range(-200,1) made explicit. -/
def pyfd (gy : ℤ) : Option ℚ :=
  if -200 ≤ gy ∧ gy ≤ 0 then some (pyfdAux (gy + 200).toNat) else none

/-- The integer dict pyd (source: pyd[gy]=int(pyfd[gy]) for gy in
k=range(-170,-126), i.e. keys -170..-127). -/
def pyd (gy : ℤ) : Option ℤ :=
  if -170 ≤ gy ∧ gy ≤ -127 then (pyfd gy).map truncQ else none

/-! ### Arithmetic facts about the projection table -/

lemma truncQ_of_neg {q : ℚ} (h : q < 0) : truncQ q = ⌈q⌉ := by
  unfold truncQ; rw [if_pos h]

lemma truncQ_of_nonneg {q : ℚ} (h : 0 ≤ q) : truncQ q = ⌊q⌋ := by
  unfold truncQ; rw [if_neg (not_lt.mpr h)]

lemma truncQ_eq_of_neg {q : ℚ} {z : ℤ} (h1 : (z : ℚ) - 1 < q) (h2 : q ≤ z)
    (h3 : q < 0) : truncQ q = z := by
  rw [truncQ_of_neg h3]
  exact Int.ceil_eq_iff.mpr ⟨h1, h2⟩

lemma truncQ_eq_of_nonneg {q : ℚ} {z : ℤ} (h1 : (z : ℚ) ≤ q) (h2 : q < z + 1)
    (h3 : 0 ≤ q) : truncQ q = z := by
  rw [truncQ_of_nonneg h3]
  exact Int.floor_eq_iff.mpr ⟨h1, h2⟩

/-- Closed form of the iterative accumulation, used to evaluate concrete
table entries. -/
lemma pyfdAux_closed (n : ℕ) :
    pyfdAux n = ((n : ℚ) + 1) * (m * ((n : ℚ) - 400) / 2 - b) := by
  induction n with
  | zero => unfold pyfdAux phd; push_cast; ring
  | succ k ih =>
      have h : pyfdAux (k + 1) = pyfdAux k - phd (-200 + (k + 1 : ℕ)) := rfl
      rw [h, ih]; unfold phd; push_cast; ring

lemma phd_pos {gy : ℤ} (h : gy ≤ 200) : 0 < phd gy := by
  have hg : (gy : ℚ) ≤ 200 := by exact_mod_cast h
  unfold phd m b
  nlinarith [hg]

lemma phd_ge_one {gy : ℤ} (h : gy ≤ 0) : 1 ≤ phd gy := by
  have hg : (gy : ℚ) ≤ 0 := by exact_mod_cast h
  unfold phd m b
  nlinarith [hg]

lemma phd_sub_succ (gy : ℤ) : phd gy - phd (gy + 1) = m := by
  unfold phd; push_cast; ring

lemma pyfdAux_succ (n : ℕ) :
    pyfdAux (n + 1) = pyfdAux n - phd (-200 + (n + 1 : ℕ)) := rfl

lemma pyfdAux_succ_add_one_le {n : ℕ} (h : n ≤ 199) :
    pyfdAux (n + 1) + 1 ≤ pyfdAux n := by
  rw [pyfdAux_succ]
  have h1 : (-200 + (n + 1 : ℕ) : ℤ) ≤ 0 := by omega
  have := phd_ge_one h1
  linarith

lemma pyfdAux_chain {n₁ n₂ : ℕ} (h : n₁ < n₂) (h2 : n₂ ≤ 200) :
    pyfdAux n₂ + 1 ≤ pyfdAux n₁ := by
  induction n₂ with
  | zero => omega
  | succ k ih =>
      rcases Nat.lt_succ_iff_lt_or_eq.mp h with hk | hk
      · have hstep := pyfdAux_succ_add_one_le (show k ≤ 199 by omega)
        have := ih hk (by omega)
        linarith
      · subst hk
        exact pyfdAux_succ_add_one_le (by omega)

lemma pyfdAux_neg {n : ℕ} (h : n ≤ 200) : pyfdAux n < 0 := by
  have h0 : pyfdAux 0 < 0 := by
    unfold pyfdAux
    have := phd_pos (show (-200 : ℤ) ≤ 200 by norm_num)
    linarith
  rcases Nat.eq_zero_or_pos n with hn | hn
  · rw [hn]; exact h0
  · have := pyfdAux_chain hn h
    linarith

lemma pyfd_eq {gy : ℤ} (h1 : -200 ≤ gy) (h2 : gy ≤ 0) :
    pyfd gy = some (pyfdAux (gy + 200).toNat) := by
  unfold pyfd; rw [if_pos ⟨h1, h2⟩]

lemma pyd_eq {gy : ℤ} (h1 : -170 ≤ gy) (h2 : gy ≤ -127) :
    pyd gy = some (truncQ (pyfdAux (gy + 200).toNat)) := by
  unfold pyd
  rw [if_pos ⟨h1, h2⟩, pyfd_eq (by omega) (by omega)]
  rfl

/-- The recurrence transported to integer row indices. -/
lemma pyfdAux_row_succ {gy : ℤ} (h1 : -199 ≤ gy) (h2 : gy ≤ 0) :
    pyfdAux (gy + 200).toNat = pyfdAux (gy - 1 + 200).toNat - phd gy := by
  have hk : (gy + 200).toNat = (gy - 1 + 200).toNat + 1 := by omega
  rw [hk, pyfdAux_succ]
  congr 1
  have : (-200 + ((gy - 1 + 200).toNat + 1 : ℕ) : ℤ) = gy := by omega
  rw [this]

lemma truncQ_lt {q1 q2 : ℚ} (h : q2 + 1 ≤ q1) (h1 : q1 < 0) (h2 : q2 < 0) :
    truncQ q2 < truncQ q1 := by
  rw [truncQ_of_neg h1, truncQ_of_neg h2]
  have hc : ⌈q2 + 1⌉ = ⌈q2⌉ + 1 := Int.ceil_add_one q2
  have h3 : ⌈q2 + 1⌉ ≤ ⌈q1⌉ := Int.ceil_mono h
  omega

/-! ### Concrete table entries (cross-checked against the source tables) -/

lemma pyfd_m170 : pyfd (-170) = some (pyfdAux 30) := by
  rw [pyfd_eq (by norm_num) (by norm_num)]
  have h : ((-170 : ℤ) + 200).toNat = 30 := by decide
  rw [h]

lemma pyfd_m169 : pyfd (-169) = some (pyfdAux 31) := by
  rw [pyfd_eq (by norm_num) (by norm_num)]
  have h : ((-169 : ℤ) + 200).toNat = 31 := by decide
  rw [h]

lemma pyfd_m151 : pyfd (-151) = some (pyfdAux 49) := by
  rw [pyfd_eq (by norm_num) (by norm_num)]
  have h : ((-151 : ℤ) + 200).toNat = 49 := by decide
  rw [h]

lemma pyfd_m150 : pyfd (-150) = some (pyfdAux 50) := by
  rw [pyfd_eq (by norm_num) (by norm_num)]
  have h : ((-150 : ℤ) + 200).toNat = 50 := by decide
  rw [h]

lemma pyd_m170 : pyd (-170) = some (-873) := by
  rw [pyd_eq (by norm_num) (by norm_num)]
  have h : ((-170 : ℤ) + 200).toNat = 30 := by decide
  rw [h, pyfdAux_closed]
  congr 1
  apply truncQ_eq_of_neg <;> norm_num [m, b]

lemma pyd_m169 : pyd (-169) = some (-900) := by
  rw [pyd_eq (by norm_num) (by norm_num)]
  have h : ((-169 : ℤ) + 200).toNat = 31 := by decide
  rw [h, pyfdAux_closed]
  congr 1
  apply truncQ_eq_of_neg <;> norm_num [m, b]

lemma pyd_m151 : pyd (-151) = some (-1373) := by
  rw [pyd_eq (by norm_num) (by norm_num)]
  have h : ((-151 : ℤ) + 200).toNat = 49 := by decide
  rw [h, pyfdAux_closed]
  congr 1
  apply truncQ_eq_of_neg <;> norm_num [m, b]

lemma pyd_m150 : pyd (-150) = some (-1399) := by
  rw [pyd_eq (by norm_num) (by norm_num)]
  have h : ((-150 : ℤ) + 200).toNat = 50 := by decide
  rw [h, pyfdAux_closed]
  congr 1
  apply truncQ_eq_of_neg <;> norm_num [m, b]

lemma pyd_m149 : pyd (-149) = some (-1424) := by
  rw [pyd_eq (by norm_num) (by norm_num)]
  have h : ((-149 : ℤ) + 200).toNat = 51 := by decide
  rw [h, pyfdAux_closed]
  congr 1
  apply truncQ_eq_of_neg <;> norm_num [m, b]

/-! ### Claims C4 and C5 -/

/-- Claim C4: for every pair of row indices gy1 < gy2 in the projection
table's domain, the cumulative offset at gy1 is strictly greater than at
gy2 (both for the floating-point table pyfd on -200..0 and for the
integer-truncated table pyd on -170..-127, so the pyd entries are pairwise
distinct), and no row's rendered height pyd[gy-1]-pyd[gy] collapses to
zero pixels, under the fixed calibration constants m = 0.07317 and
b = 14.63415. -/
theorem C4_offsets_strictly_decreasing :
    (∀ gy1 gy2 : ℤ, -200 ≤ gy1 → gy1 < gy2 → gy2 ≤ 0 →
      ∀ q1 q2 : ℚ, pyfd gy1 = some q1 → pyfd gy2 = some q2 → q2 < q1) ∧
    (∀ gy1 gy2 : ℤ, -170 ≤ gy1 → gy1 < gy2 → gy2 ≤ -127 →
      ∀ p1 p2 : ℤ, pyd gy1 = some p1 → pyd gy2 = some p2 → p2 < p1) ∧
    (∀ gy : ℤ, -169 ≤ gy → gy ≤ -127 →
      ∀ p p' : ℤ, pyd gy = some p → pyd (gy - 1) = some p' → 1 ≤ p' - p) := by
  have hfd : ∀ gy1 gy2 : ℤ, -200 ≤ gy1 → gy1 < gy2 → gy2 ≤ 0 →
      pyfdAux (gy2 + 200).toNat + 1 ≤ pyfdAux (gy1 + 200).toNat := by
    intro gy1 gy2 h1 h2 h3
    exact pyfdAux_chain (by omega) (by omega)
  have hpyd : ∀ gy1 gy2 : ℤ, -170 ≤ gy1 → gy1 < gy2 → gy2 ≤ -127 →
      ∀ p1 p2 : ℤ, pyd gy1 = some p1 → pyd gy2 = some p2 → p2 < p1 := by
    intro gy1 gy2 h1 h2 h3 p1 p2 hp1 hp2
    rw [pyd_eq (by omega) (by omega)] at hp1 hp2
    have e1 := Option.some_injective _ hp1
    have e2 := Option.some_injective _ hp2
    have hchain := hfd gy1 gy2 (by omega) h2 (by omega)
    have hn1 : pyfdAux (gy1 + 200).toNat < 0 := pyfdAux_neg (by omega)
    have hn2 : pyfdAux (gy2 + 200).toNat < 0 := pyfdAux_neg (by omega)
    rw [← e1, ← e2]
    exact truncQ_lt hchain hn1 hn2
  refine ⟨?_, hpyd, ?_⟩
  · intro gy1 gy2 h1 h2 h3 q1 q2 hq1 hq2
    rw [pyfd_eq (by omega) (by omega)] at hq1 hq2
    have e1 := Option.some_injective _ hq1
    have e2 := Option.some_injective _ hq2
    have := hfd gy1 gy2 h1 h2 h3
    rw [← e1, ← e2]
    linarith
  · intro gy h1 h2 p p' hp hp'
    have := hpyd (gy - 1) gy (by omega) (by omega) h2 p' p hp' hp
    omega

/-- Witness for C4 at concrete rows: gy1 = -170, gy2 = -169, and the
height of row -169. -/
theorem C4_offsets_strictly_decreasing_witness :
    pyfdAux 31 < pyfdAux 30 ∧ ((-900 : ℤ) < -873) ∧ (1 : ℤ) ≤ -873 - -900 :=
  ⟨C4_offsets_strictly_decreasing.1 (-170) (-169) (by norm_num) (by norm_num)
      (by norm_num) _ _ pyfd_m170 pyfd_m169,
   C4_offsets_strictly_decreasing.2.1 (-170) (-169) (by norm_num) (by norm_num)
      (by norm_num) _ _ pyd_m170 pyd_m169,
   C4_offsets_strictly_decreasing.2.2 (-169) (by norm_num) (by norm_num)
      _ _ pyd_m169 pyd_m170⟩

/-- Claim C5: the cumulative table is seeded at the southern boundary row
gy = -200 with -Height(-200), satisfies
CumulativeOffset(gy) = CumulativeOffset(gy-1) - Height(gy) with
Height(gy) = -m*gy + b on the rest of its domain, and only the accumulated
value is truncated toward zero to build the integer table pyd. -/
theorem C5_iterative_accumulation :
    pyfd (-200) = some (-phd (-200)) ∧
    (∀ gy : ℤ, -199 ≤ gy → gy ≤ 0 →
      ∀ q : ℚ, pyfd (gy - 1) = some q → pyfd gy = some (q - phd gy)) ∧
    (∀ gy : ℤ, phd gy = -m * gy + b) ∧
    (∀ gy : ℤ, -170 ≤ gy → gy ≤ -127 →
      ∀ q : ℚ, pyfd gy = some q → pyd gy = some (truncQ q)) ∧
    (∀ q : ℚ, q < 0 → truncQ q = ⌈q⌉) ∧
    (∀ q : ℚ, 0 ≤ q → truncQ q = ⌊q⌋) := by
  refine ⟨?_, ?_, fun gy => rfl, ?_, fun q h => truncQ_of_neg h,
    fun q h => truncQ_of_nonneg h⟩
  · rw [pyfd_eq (by norm_num) (by norm_num)]
    have h : ((-200 : ℤ) + 200).toNat = 0 := by decide
    rw [h]
    rfl
  · intro gy h1 h2 q hq
    rw [pyfd_eq (by omega) (by omega)] at hq ⊢
    have e := Option.some_injective _ hq
    rw [pyfdAux_row_succ (by omega) (by omega), e]
  · intro gy h1 h2 q hq
    rw [pyfd_eq (by omega) (by omega)] at hq
    have e := Option.some_injective _ hq
    rw [pyd_eq h1 h2, e]

/-- Witness for C5 at concrete rows gy = -150 and a sample truncation. -/
theorem C5_iterative_accumulation_witness :
    pyfd (-150) = some (pyfdAux 49 - phd (-150)) ∧
    pyd (-150) = some (truncQ (pyfdAux 50)) ∧
    truncQ (-(1 : ℚ)/2) = ⌈(-(1 : ℚ)/2)⌉ :=
  ⟨by
    have h := C5_iterative_accumulation.2.1 (-150) (by norm_num) (by norm_num)
      (pyfdAux 49) (by rw [show (-150 : ℤ) - 1 = -151 by norm_num]; exact pyfd_m151)
    exact h,
   C5_iterative_accumulation.2.2.2.1 (-150) (by norm_num) (by norm_num)
      (pyfdAux 50) pyfd_m150,
   C5_iterative_accumulation.2.2.2.2.1 (-(1 : ℚ)/2) (by norm_num)⟩

/-! ### Coverage raster renderer (get_coverage, source lines 150-211)

The per-dataset loop of get_coverage assigns
  gxmin=gxmin or min(gxlist)  (and likewise gymin/gxmax/gymax),
reading and re-assigning the function's own parameters, so a value set for
one dataset persists for the next (Python treats None and 0 as falsy). -/

/-- Python value of x in `x or v` for x an optional int (None and 0 falsy). -/
def pyOr : Option ℤ → ℤ → ℤ
  | none, v => v
  | some x, v => if x = 0 then v else x

/-- Python min() over a nonempty int list ([] is never passed by the source). -/
def listMin : List ℤ → ℤ
  | [] => 0
  | x :: xs => xs.foldl min x

/-- Python max() over a nonempty int list ([] is never passed by the source). -/
def listMax : List ℤ → ℤ
  | [] => 0
  | x :: xs => xs.foldl max x

/-- The four bound variables of get_coverage (None when not yet supplied). -/
structure BState where
  gxmin : Option ℤ
  gymin : Option ℤ
  gxmax : Option ℤ
  gymax : Option ℤ

/-- One iteration of the per-dataset loop: or-default the four bounds from
this dataset's coordinate extrema, re-assigning the loop variables. -/
def bboxStep (st : BState) (coords : List (ℤ × ℤ)) :
    BState × (ℤ × ℤ × ℤ × ℤ) :=
  let gxmin := pyOr st.gxmin (listMin (coords.map Prod.fst))
  let gymin := pyOr st.gymin (listMin (coords.map Prod.snd))
  let gxmax := pyOr st.gxmax (listMax (coords.map Prod.fst))
  let gymax := pyOr st.gymax (listMax (coords.map Prod.snd))
  (⟨some gxmin, some gymin, some gxmax, some gymax⟩, (gxmin, gymin, gxmax, gymax))

/-- Bounding box used for each dataset, in dict-insertion order. -/
def bboxList (st : BState) : List (List (ℤ × ℤ)) → List (ℤ × ℤ × ℤ × ℤ)
  | [] => []
  | c :: rest =>
    let p := bboxStep st c
    p.2 :: bboxList p.1 rest

lemma bboxList_const {a bm c d : ℤ} (ha : a ≠ 0) (hb : bm ≠ 0) (hc : c ≠ 0)
    (hd : d ≠ 0) (dss : List (List (ℤ × ℤ))) :
    bboxList ⟨some a, some bm, some c, some d⟩ dss =
      dss.map (fun _ => (a, bm, c, d)) := by
  induction dss with
  | nil => rfl
  | cons cs rest ih =>
      simp only [bboxList, bboxStep, pyOr, List.map_cons, if_neg ha, if_neg hb,
        if_neg hc, if_neg hd]
      rw [ih]

/-- Claim C1 counterexample: two datasets in one directory with different
coordinate extents.  The first dataset (single tile at (-500,-160)) fixes
the loop variables; the second dataset (single tile at (-499,-159)) then
reuses the first dataset's bounding box instead of its own extents
(-499,-159,-499,-159). -/
theorem C1_counterexample :
    bboxList ⟨none, none, none, none⟩ [[(-500, -160)], [(-499, -159)]] =
      [(-500, -160, -500, -160), (-500, -160, -500, -160)] ∧
    (listMin ([((-499 : ℤ), (-159 : ℤ))].map Prod.fst),
      listMin ([((-499 : ℤ), (-159 : ℤ))].map Prod.snd),
      listMax ([((-499 : ℤ), (-159 : ℤ))].map Prod.fst),
      listMax ([((-499 : ℤ), (-159 : ℤ))].map Prod.snd)) =
      (-499, -159, -499, -159) ∧
    ((-500 : ℤ), (-160 : ℤ), (-500 : ℤ), (-160 : ℤ)) ≠
      (-499, -159, -499, -159) := by
  refine ⟨rfl, rfl, by decide⟩

/-- Claim C1 amended: with no bounding box supplied, the box is computed
from the first processed dataset's own min/max extents, and (because the
loop re-assigns the or-defaulted parameters) every subsequent dataset in
the same directory reuses that same box (whenever the first dataset's four
extrema are nonzero), instead of being sized independently. -/
theorem C1_first_dataset_box_reused :
    ∀ (c1 : List (ℤ × ℤ)) (rest : List (List (ℤ × ℤ))),
    listMin (c1.map Prod.fst) ≠ 0 → listMin (c1.map Prod.snd) ≠ 0 →
    listMax (c1.map Prod.fst) ≠ 0 → listMax (c1.map Prod.snd) ≠ 0 →
    bboxList ⟨none, none, none, none⟩ (c1 :: rest) =
      (listMin (c1.map Prod.fst), listMin (c1.map Prod.snd),
        listMax (c1.map Prod.fst), listMax (c1.map Prod.snd)) ::
      rest.map (fun _ => (listMin (c1.map Prod.fst), listMin (c1.map Prod.snd),
        listMax (c1.map Prod.fst), listMax (c1.map Prod.snd))) := by
  intro c1 rest ha hb hc hd
  simp only [bboxList, bboxStep, pyOr]
  rw [bboxList_const ha hb hc hd rest]

/-- Witness for the amended C1 at the counterexample's concrete directory. -/
theorem C1_first_dataset_box_reused_witness :
    bboxList ⟨none, none, none, none⟩ [[(-500, -160)], [(-499, -159)]] =
      [(-500, -160, -500, -160), (-500, -160, -500, -160)] := by
  have h := C1_first_dataset_box_reused [(-500, -160)] [[(-499, -159)]]
    (by decide) (by decide) (by decide) (by decide)
  simpa using h

/-- Pixel bounds of one drawn grid cell (source lines 191-194):
llx=int(ngx*gw); urx=int((ngx+1)*gw)-1; lly=pysize-(pyd[gy]-pyo+1);
ury=pysize-(pyd[gy-1]-pyo). -/
structure CellBox where
  llx : ℤ
  lly : ℤ
  urx : ℤ
  ury : ℤ
deriving DecidableEq

/-- Drawing bounds for the cell at (gx,gy); none models a KeyError on the
pyd lookups. -/
def cellBox (pysize pyo gxmin gx gy : ℤ) : Option CellBox :=
  match pyd gy, pyd (gy - 1) with
  | some pgy, some pgym1 =>
      some { llx := truncQ (((gx - gxmin : ℤ) : ℚ) * gw)
           , lly := pysize - (pgy - pyo + 1)
           , urx := truncQ ((((gx - gxmin : ℤ) : ℚ) + 1) * gw) - 1
           , ury := pysize - (pgym1 - pyo) }
  | _, _ => none

/-- Canvas sizing of get_coverage (source lines 178-182):
pxsize=int(gxsize*gw); pysize=pyd[gymin]-pyd[gymax+1]+3; pyo=pyd[gymax];
none models a KeyError on the pyd lookups. -/
def renderSize (gxmin gymin gxmax gymax : ℤ) : Option (ℤ × ℤ × ℤ) :=
  match pyd gymin, pyd (gymax + 1), pyd gymax with
  | some pmin, some pmax1, some po =>
      some (truncQ (((gxmax - gxmin + 1 : ℤ) : ℚ) * gw), pmin - pmax1 + 3, po)
  | _, _, _ => none

/-- Cell bounds of every present coordinate, in traversal order. -/
def drawCells (pysize pyo gxmin : ℤ) : List (ℤ × ℤ) → Option (List CellBox)
  | [] => some []
  | c :: rest =>
      match cellBox pysize pyo gxmin c.1 c.2, drawCells pysize pyo gxmin rest with
      | some bx, some bxs => some (bx :: bxs)
      | _, _ => none

/-- One dataset's raster: pixel size and the drawn cell boxes. -/
def renderDataset (gxmin gymin gxmax gymax : ℤ) (coords : List (ℤ × ℤ)) :
    Option (ℤ × ℤ × List CellBox) :=
  match renderSize gxmin gymin gxmax gymax with
  | some (pxsize, pysize, pyo) =>
      (drawCells pysize pyo gxmin coords).map fun bxs => (pxsize, pysize, bxs)
  | none => none

/-! ### Claim C6: adjacent cells tile the canvas exactly -/

/-- Claim C6: on one canvas with one bounding box, the pixel rectangle of
the cell at (gx,gy) and those of its eastern neighbor (gx+1,gy) and of its
vertical neighbor (gx,gy+1) neither overlap nor leave a gap: the right
column of a cell is exactly one less than the left column of its eastern
neighbor, and the bottom row of a cell is exactly one less than the top
row of the cell one grid row higher (image rows grow downward). -/
theorem C6_adjacent_cells_tile :
    ∀ pysize pyo gxmin gx gy : ℤ, -169 ≤ gy → gy ≤ -128 →
    ∃ b1 b2 b3 : CellBox,
      cellBox pysize pyo gxmin gx gy = some b1 ∧
      cellBox pysize pyo gxmin (gx + 1) gy = some b2 ∧
      cellBox pysize pyo gxmin gx (gy + 1) = some b3 ∧
      b1.urx = b2.llx - 1 ∧
      b1.lly = b3.ury - 1 := by
  intro pysize pyo gxmin gx gy h1 h2
  have hgy := pyd_eq (show -170 ≤ gy by omega) (show gy ≤ -127 by omega)
  have hgym1 := pyd_eq (show -170 ≤ gy - 1 by omega) (show gy - 1 ≤ -127 by omega)
  have hgyp1 := pyd_eq (show -170 ≤ gy + 1 by omega) (show gy + 1 ≤ -127 by omega)
  have hshift : gy + 1 - 1 = gy := by omega
  refine ⟨{ llx := truncQ (((gx - gxmin : ℤ) : ℚ) * gw)
          , lly := pysize - (truncQ (pyfdAux (gy + 200).toNat) - pyo + 1)
          , urx := truncQ ((((gx - gxmin : ℤ) : ℚ) + 1) * gw) - 1
          , ury := pysize - (truncQ (pyfdAux (gy - 1 + 200).toNat) - pyo) },
        { llx := truncQ (((gx + 1 - gxmin : ℤ) : ℚ) * gw)
          , lly := pysize - (truncQ (pyfdAux (gy + 200).toNat) - pyo + 1)
          , urx := truncQ ((((gx + 1 - gxmin : ℤ) : ℚ) + 1) * gw) - 1
          , ury := pysize - (truncQ (pyfdAux (gy - 1 + 200).toNat) - pyo) },
        { llx := truncQ (((gx - gxmin : ℤ) : ℚ) * gw)
          , lly := pysize - (truncQ (pyfdAux (gy + 1 + 200).toNat) - pyo + 1)
          , urx := truncQ ((((gx - gxmin : ℤ) : ℚ) + 1) * gw) - 1
          , ury := pysize - (truncQ (pyfdAux (gy + 200).toNat) - pyo) },
        ?_, ?_, ?_, ?_, ?_⟩
  · unfold cellBox; rw [hgy, hgym1]
  · unfold cellBox; rw [hgy, hgym1]
  · unfold cellBox; rw [hshift, hgyp1, hgy]
  · show truncQ ((((gx - gxmin : ℤ) : ℚ) + 1) * gw) - 1 =
      truncQ (((gx + 1 - gxmin : ℤ) : ℚ) * gw) - 1
    have harg : (((gx - gxmin : ℤ) : ℚ) + 1) = ((gx + 1 - gxmin : ℤ) : ℚ) := by
      push_cast; ring
    rw [harg]
  · show pysize - (truncQ (pyfdAux (gy + 200).toNat) - pyo + 1) =
      pysize - (truncQ (pyfdAux (gy + 200).toNat) - pyo) - 1
    ring

/-- Witness for C6 at the concrete canvas of a small dataset
(pysize = 28, pyo = -1399, bounding box column -500, cell (-500,-150)). -/
theorem C6_adjacent_cells_tile_witness :
    ∃ b1 b2 b3 : CellBox,
      cellBox 28 (-1399) (-500) (-500) (-150) = some b1 ∧
      cellBox 28 (-1399) (-500) (-499) (-150) = some b2 ∧
      cellBox 28 (-1399) (-500) (-500) (-149) = some b3 ∧
      b1.urx = b2.llx - 1 ∧
      b1.lly = b3.ury - 1 := by
  have h := C6_adjacent_cells_tile 28 (-1399) (-500) (-500) (-150)
    (by norm_num) (by norm_num)
  simpa using h

/-! ### Claim C8: dataset with exactly one present tile -/

lemma truncQ_zero : truncQ 0 = 0 := by
  apply truncQ_eq_of_nonneg <;> norm_num

lemma truncQ_gw : truncQ gw = 27 := by
  apply truncQ_eq_of_nonneg <;> norm_num [gw]

/-- Evaluation of renderDataset on a one-coordinate dataset whose computed
bounding box is that single coordinate. -/
lemma renderDataset_single {gx gy pgy pgym1 pgyp1 : ℤ}
    (hgy : pyd gy = some pgy) (hm1 : pyd (gy - 1) = some pgym1)
    (hp1 : pyd (gy + 1) = some pgyp1) :
    renderDataset gx gy gx gy [(gx, gy)] =
      some (27, pgy - pgyp1 + 3,
        [{ llx := 0, lly := pgy - pgyp1 + 2, urx := 26
         , ury := pgy - pgyp1 + 3 - (pgym1 - pgy) }]) := by
  unfold renderDataset renderSize drawCells cellBox
  rw [hgy, hm1, hp1]
  have e1 : (gx - gx + 1 : ℤ) = 1 := by ring
  have e2 : (gx - gx : ℤ) = 0 := by ring
  simp only [e1, e2, Int.cast_one, Int.cast_zero, one_mul, zero_mul,
    truncQ_zero, zero_add, truncQ_gw, drawCells]
  have e3 : pgy - pgy + 1 = (1 : ℤ) := by ring
  rw [e3]
  have e4 : pgy - pgyp1 + 3 - 1 = pgy - pgyp1 + 2 := by ring
  rw [e4]
  norm_num

/-- Bounds relating the truncated offsets of two consecutive rows to the
row height phd. -/
lemma pyd_row_gap {gy : ℤ} (h1 : -169 ≤ gy) (h2 : gy ≤ -127)
    {p p' : ℤ} (hp : pyd gy = some p) (hp' : pyd (gy - 1) = some p') :
    phd gy - 1 < ((p' - p : ℤ) : ℚ) ∧ ((p' - p : ℤ) : ℚ) < phd gy + 1 := by
  rw [pyd_eq (by omega) (by omega)] at hp hp'
  have e := Option.some_injective _ hp
  have e' := Option.some_injective _ hp'
  set q := pyfdAux (gy + 200).toNat with hq
  set q' := pyfdAux (gy - 1 + 200).toNat with hq'
  have hrec : q = q' - phd gy := by
    rw [hq, hq']; exact pyfdAux_row_succ (by omega) (by omega)
  have hqneg : q < 0 := pyfdAux_neg (by omega)
  have hqneg' : q' < 0 := pyfdAux_neg (by omega)
  have hpceil : (p : ℚ) = ⌈q⌉ := by rw [← e, truncQ_of_neg hqneg]
  have hpceil' : (p' : ℚ) = ⌈q'⌉ := by rw [← e', truncQ_of_neg hqneg']
  have hb1 : q ≤ (⌈q⌉ : ℚ) := Int.le_ceil q
  have hb2 : (⌈q⌉ : ℚ) < q + 1 := Int.ceil_lt_add_one q
  have hb3 : q' ≤ (⌈q'⌉ : ℚ) := Int.le_ceil q'
  have hb4 : (⌈q'⌉ : ℚ) < q' + 1 := Int.ceil_lt_add_one q'
  constructor
  · push_cast
    rw [hpceil, hpceil']
    linarith [hrec]
  · push_cast
    rw [hpceil, hpceil']
    linarith [hrec]

/-- Claim C8 counterexample: the dataset with the single tile (-500,-150)
and no supplied bounding box.  The raster is 27x28 pixels, but the single
drawn cell spans rows 2..27 and columns 0..26, i.e. is 27x26 pixels: the
raster height does not equal the cell height. -/
theorem C8_counterexample :
    renderDataset (-500) (-150) (-500) (-150) [(-500, -150)] =
      some (27, 28, [{ llx := 0, lly := 27, urx := 26, ury := 2 }]) ∧
    (27 : ℤ) - 2 + 1 ≠ 28 := by
  constructor
  · have h := @renderDataset_single (-500) (-150) (-1399) (-1373) (-1424)
      pyd_m150
      (by rw [show (-150 : ℤ) - 1 = -151 by norm_num]; exact pyd_m151)
      (by rw [show (-150 : ℤ) + 1 = -149 by norm_num]; exact pyd_m149)
    rw [h]
    norm_num
  · norm_num

/-- Claim C8 amended: a dataset with exactly one present tile at (gx,gy),
rendered with no supplied bounding box, produces a raster whose pixel
width equals exactly one grid cell's width (27 pixels), and whose pixel
height pyd[gy]-pyd[gy+1]+3 is positive but strictly exceeds the drawn
cell's pixel height pyd[gy-1]-pyd[gy]: the image is non-degenerate, but
its height is not exactly one cell's height. -/
theorem C8_single_tile_raster :
    ∀ gx gy : ℤ, -169 ≤ gy → gy ≤ -128 →
    ∃ pgy pgym1 pgyp1 : ℤ,
      pyd gy = some pgy ∧ pyd (gy - 1) = some pgym1 ∧
      pyd (gy + 1) = some pgyp1 ∧
      bboxStep ⟨none, none, none, none⟩ [(gx, gy)] =
        (⟨some gx, some gy, some gx, some gy⟩, (gx, gy, gx, gy)) ∧
      renderDataset gx gy gx gy [(gx, gy)] =
        some (27, pgy - pgyp1 + 3,
          [{ llx := 0, lly := pgy - pgyp1 + 2, urx := 26
           , ury := pgy - pgyp1 + 3 - (pgym1 - pgy) }]) ∧
      (26 : ℤ) - 0 + 1 = 27 ∧
      0 < pgy - pgyp1 + 3 ∧
      pgym1 - pgy < pgy - pgyp1 + 3 := by
  intro gx gy h1 h2
  have hgy := pyd_eq (show -170 ≤ gy by omega) (show gy ≤ -127 by omega)
  have hgym1 := pyd_eq (show -170 ≤ gy - 1 by omega) (show gy - 1 ≤ -127 by omega)
  have hgyp1 := pyd_eq (show -170 ≤ gy + 1 by omega) (show gy + 1 ≤ -127 by omega)
  refine ⟨_, _, _, hgy, hgym1, hgyp1, rfl,
    renderDataset_single hgy hgym1 hgyp1, by norm_num, ?_, ?_⟩
  · -- positivity of the raster height, from the gap bounds at row gy+1
    have hgap := pyd_row_gap (show -169 ≤ gy + 1 by omega)
      (show gy + 1 ≤ -127 by omega) hgyp1
      (by rw [show gy + 1 - 1 = gy by ring]; exact hgy)
    have hphd : 1 ≤ phd (gy + 1) := phd_ge_one (by omega)
    have : (0 : ℚ) <
        ((truncQ (pyfdAux (gy + 200).toNat) -
          truncQ (pyfdAux (gy + 1 + 200).toNat) + 3 : ℤ) : ℚ) := by
      push_cast at hgap ⊢
      linarith [hgap.1]
    exact_mod_cast this
  · -- the cell height is strictly below the raster height
    have hgapA := pyd_row_gap h1 (show gy ≤ -127 by omega) hgy hgym1
    have hgapB := pyd_row_gap (show -169 ≤ gy + 1 by omega)
      (show gy + 1 ≤ -127 by omega) hgyp1
      (by rw [show gy + 1 - 1 = gy by ring]; exact hgy)
    have hm : phd gy - phd (gy + 1) = m := phd_sub_succ gy
    have hmlt : m < 1 := by norm_num [m]
    have : ((truncQ (pyfdAux (gy - 1 + 200).toNat) -
          truncQ (pyfdAux (gy + 200).toNat) : ℤ) : ℚ) <
        ((truncQ (pyfdAux (gy + 200).toNat) -
          truncQ (pyfdAux (gy + 1 + 200).toNat) + 3 : ℤ) : ℚ) := by
      push_cast at hgapA hgapB ⊢
      linarith [hgapA.2, hgapB.1]
    have hz : (truncQ (pyfdAux (gy - 1 + 200).toNat) -
          truncQ (pyfdAux (gy + 200).toNat) : ℤ) <
        (truncQ (pyfdAux (gy + 200).toNat) -
          truncQ (pyfdAux (gy + 1 + 200).toNat) + 3 : ℤ) := by
      exact_mod_cast this
    omega

/-- Witness for the amended C8 at the concrete tile (-500,-150). -/
theorem C8_single_tile_raster_witness :
    ∃ pgy pgym1 pgyp1 : ℤ,
      pyd (-150) = some pgy ∧ pyd (-150 - 1) = some pgym1 ∧
      pyd (-150 + 1) = some pgyp1 ∧
      bboxStep ⟨none, none, none, none⟩ [(-500, -150)] =
        (⟨some (-500), some (-150), some (-500), some (-150)⟩,
          (-500, -150, -500, -150)) ∧
      renderDataset (-500) (-150) (-500) (-150) [(-500, -150)] =
        some (27, pgy - pgyp1 + 3,
          [{ llx := 0, lly := pgy - pgyp1 + 2, urx := 26
           , ury := pgy - pgyp1 + 3 - (pgym1 - pgy) }]) ∧
      (26 : ℤ) - 0 + 1 = 27 ∧
      0 < pgy - pgyp1 + 3 ∧
      pgym1 - pgy < pgy - pgyp1 + 3 :=
  C8_single_tile_raster (-500) (-150) (by norm_num) (by norm_num)

/-! ### Claim C10: table key ranges and lookup safety in get_coverage -/

lemma foldl_min_le_init (l : List ℤ) (a : ℤ) : l.foldl min a ≤ a := by
  induction l generalizing a with
  | nil => exact le_refl a
  | cons c t ih => exact le_trans (ih (min a c)) (min_le_left a c)

lemma foldl_min_le_mem {l : List ℤ} {x : ℤ} (hx : x ∈ l) (a : ℤ) :
    l.foldl min a ≤ x := by
  induction l generalizing a with
  | nil => cases hx
  | cons c t ih =>
      rcases List.mem_cons.mp hx with h | h
      · subst h
        exact le_trans (foldl_min_le_init t (min a x)) (min_le_right a x)
      · exact ih h (min a c)

lemma foldl_max_init_le (l : List ℤ) (a : ℤ) : a ≤ l.foldl max a := by
  induction l generalizing a with
  | nil => exact le_refl a
  | cons c t ih => exact le_trans (le_max_left a c) (ih (max a c))

lemma foldl_max_mem_le {l : List ℤ} {x : ℤ} (hx : x ∈ l) (a : ℤ) :
    x ≤ l.foldl max a := by
  induction l generalizing a with
  | nil => cases hx
  | cons c t ih =>
      rcases List.mem_cons.mp hx with h | h
      · subst h
        exact le_trans (le_max_right a x) (foldl_max_init_le t (max a x))
      · exact ih h (max a c)

lemma listMin_le {l : List ℤ} {x : ℤ} (hx : x ∈ l) : listMin l ≤ x := by
  cases l with
  | nil => cases hx
  | cons c t =>
      rcases List.mem_cons.mp hx with h | h
      · subst h; exact foldl_min_le_init t x
      · exact foldl_min_le_mem h c

lemma le_listMax {l : List ℤ} {x : ℤ} (hx : x ∈ l) : x ≤ listMax l := by
  cases l with
  | nil => cases hx
  | cons c t =>
      rcases List.mem_cons.mp hx with h | h
      · subst h; exact foldl_max_init_le t x
      · exact foldl_max_mem_le h c

lemma foldl_min_mem (t : List ℤ) : ∀ c : ℤ, t.foldl min c ∈ c :: t := by
  induction t with
  | nil => intro c; exact List.mem_singleton.mpr rfl
  | cons d t2 ih =>
      intro c
      show List.foldl min (min c d) t2 ∈ c :: d :: t2
      have h := ih (min c d)
      rcases min_choice c d with hm | hm
      · rw [hm] at h
        rcases List.mem_cons.mp h with h2 | h2
        · rw [hm, h2]; exact List.mem_cons_self c (d :: t2)
        · rw [hm]; exact List.mem_cons_of_mem c (List.mem_cons_of_mem d h2)
      · rw [hm] at h
        rw [hm]
        exact List.mem_cons_of_mem c h

lemma listMin_mem {l : List ℤ} (h : l ≠ []) : listMin l ∈ l := by
  cases l with
  | nil => exact absurd rfl h
  | cons c t => exact foldl_min_mem t c

lemma pyd_isSome_iff (gy : ℤ) :
    (pyd gy).isSome ↔ (-170 ≤ gy ∧ gy ≤ -127) := by
  constructor
  · intro h
    by_contra hc
    unfold pyd at h
    rw [if_neg hc] at h
    cases h
  · intro h
    rw [pyd_eq h.1 h.2]
    rfl

lemma pyd_none_of_out {gy : ℤ} (h : gy < -170 ∨ -127 < gy) : pyd gy = none := by
  unfold pyd
  rw [if_neg (by omega)]

lemma drawCells_isSome {pysize pyo gxmin : ℤ} {coords : List (ℤ × ℤ)}
    (h : ∀ c ∈ coords, (cellBox pysize pyo gxmin c.1 c.2).isSome) :
    (drawCells pysize pyo gxmin coords).isSome := by
  induction coords with
  | nil => rfl
  | cons c rest ih =>
      have hc := h c (List.mem_cons_self c rest)
      have hrest := ih fun d hd => h d (List.mem_cons_of_mem c hd)
      unfold drawCells
      rcases hbx : cellBox pysize pyo gxmin c.1 c.2 with _ | bx
      · simp [hbx] at hc
      · rcases hrest2 : drawCells pysize pyo gxmin rest with _ | bxs
        · simp [hrest2] at hrest
        · rfl

lemma drawCells_none_of_mem {pysize pyo gxmin : ℤ} {coords : List (ℤ × ℤ)}
    {c : ℤ × ℤ} (hc : c ∈ coords)
    (h : cellBox pysize pyo gxmin c.1 c.2 = none) :
    drawCells pysize pyo gxmin coords = none := by
  induction coords with
  | nil => cases hc
  | cons d rest ih =>
      unfold drawCells
      rcases List.mem_cons.mp hc with h1 | h1
      · subst h1
        rw [h]
      · rw [ih h1]
        rcases cellBox pysize pyo gxmin d.1 d.2 with _ | bx <;> rfl

lemma cellBox_some {pysize pyo gxmin gx gy : ℤ} (h1 : -169 ≤ gy)
    (h2 : gy ≤ -127) : (cellBox pysize pyo gxmin gx gy).isSome := by
  unfold cellBox
  rw [pyd_eq (by omega) h2, pyd_eq (by omega) (by omega)]
  rfl

lemma renderSize_some_bounds {gxmin gymin gxmax gymax : ℤ}
    {pp : ℤ × ℤ × ℤ} (h : renderSize gxmin gymin gxmax gymax = some pp) :
    (-170 ≤ gymin ∧ gymin ≤ -127) ∧ (-170 ≤ gymax + 1 ∧ gymax + 1 ≤ -127) := by
  unfold renderSize at h
  rcases h1 : pyd gymin with _ | v1 <;> rw [h1] at h <;>
    rcases h2 : pyd (gymax + 1) with _ | v2 <;> rw [h2] at h <;>
    rcases h3 : pyd gymax with _ | v3 <;> rw [h3] at h
  case some.some.some =>
    exact ⟨(pyd_isSome_iff gymin).mp (by rw [h1]; rfl),
      (pyd_isSome_iff (gymax + 1)).mp (by rw [h2]; rfl)⟩
  all_goals exact Option.noConfusion h

/-- Claim C10: the integer table pyd is keyed exactly on -170..-127 while
the floating-point table pyfd covers -200..0; a dataset whose row extremes
satisfy gymin >= -169 and gymax <= -128 makes every pyd lookup of
get_coverage succeed, and a dataset whose row range extends outside
[-169,-128] makes get_coverage fail on a missing-key lookup instead of
producing a raster. -/
theorem C10_pyd_lookup_safety :
    (∀ gy : ℤ, (pyd gy).isSome ↔ (-170 ≤ gy ∧ gy ≤ -127)) ∧
    (∀ gy : ℤ, (pyfd gy).isSome ↔ (-200 ≤ gy ∧ gy ≤ 0)) ∧
    (∀ (coords : List (ℤ × ℤ)) (gxmin gxmax : ℤ), coords ≠ [] →
      (-169 ≤ listMin (coords.map Prod.snd) →
        listMax (coords.map Prod.snd) ≤ -128 →
        (renderDataset gxmin (listMin (coords.map Prod.snd)) gxmax
          (listMax (coords.map Prod.snd)) coords).isSome) ∧
      (listMin (coords.map Prod.snd) < -169 ∨
          -128 < listMax (coords.map Prod.snd) →
        renderDataset gxmin (listMin (coords.map Prod.snd)) gxmax
          (listMax (coords.map Prod.snd)) coords = none)) := by
  refine ⟨pyd_isSome_iff, ?_, ?_⟩
  · intro gy
    constructor
    · intro h
      by_contra hc
      unfold pyfd at h
      rw [if_neg hc] at h
      cases h
    · intro h
      rw [pyfd_eq h.1 h.2]
      rfl
  · intro coords gxmin gxmax hne
    set gmn := listMin (coords.map Prod.snd) with hgmn
    set gmx := listMax (coords.map Prod.snd) with hgmx
    have hmemmin : gmn ∈ coords.map Prod.snd := by
      rw [hgmn]
      apply listMin_mem
      simpa using hne
    have hboundmax : ∀ c ∈ coords, c.2 ≤ gmx := fun c hc =>
      le_listMax (List.mem_map_of_mem Prod.snd hc)
    have hboundmin : ∀ c ∈ coords, gmn ≤ c.2 := fun c hc =>
      listMin_le (List.mem_map_of_mem Prod.snd hc)
    have hminmax : gmn ≤ gmx := by
      rcases List.mem_map.mp hmemmin with ⟨c, hc, he⟩
      rw [← he]
      exact hboundmax c hc
    constructor
    · intro hlo hhi
      unfold renderDataset renderSize
      rw [pyd_eq (by omega) (by omega), pyd_eq (by omega) (by omega),
        pyd_eq (by omega) (by omega)]
      dsimp only
      rcases hdc2 : drawCells (truncQ (pyfdAux (gmn + 200).toNat) -
          truncQ (pyfdAux (gmx + 1 + 200).toNat) + 3)
          (truncQ (pyfdAux (gmx + 200).toNat)) gxmin coords with _ | bxs
      · exfalso
        have hdc : (drawCells (truncQ (pyfdAux (gmn + 200).toNat) -
            truncQ (pyfdAux (gmx + 1 + 200).toNat) + 3)
            (truncQ (pyfdAux (gmx + 200).toNat)) gxmin coords).isSome := by
          apply drawCells_isSome
          intro c hc
          exact cellBox_some (by have := hboundmin c hc; omega)
            (by have := hboundmax c hc; omega)
        simp [hdc2] at hdc
      · rfl
    · intro hout
      unfold renderDataset
      rcases hrs : renderSize gxmin gmn gxmax gmx with _ | pp
      · rfl
      · -- renderSize succeeded, so gmn >= -170 and gmx <= -128; the
        -- out-of-range disjunct forces gmn = -170, and the coordinate
        -- attaining the row minimum then needs the missing key -171.
        have hb := renderSize_some_bounds hrs
        have hgmn170 : gmn = -170 := by omega
        rcases List.mem_map.mp hmemmin with ⟨c, hc, he⟩
        obtain ⟨pxsize, pysize, pyo⟩ := pp
        have hnone : cellBox pysize pyo gxmin c.1 c.2 = none := by
          unfold cellBox
          rw [he, hgmn170]
          rw [show ((-170 : ℤ) - 1) = -171 by norm_num]
          rw [pyd_none_of_out (show (-171 : ℤ) < -170 ∨ (-127 : ℤ) < -171 by
            norm_num)]
          rcases pyd (-170) with _ | v <;> rfl
        dsimp only
        rw [drawCells_none_of_mem hc hnone]
        rfl

/-- Witness for C10: a one-tile dataset inside the safe band renders, and
a one-tile dataset on row -170 fails its pyd lookups. -/
theorem C10_pyd_lookup_safety_witness :
    (pyd (-150)).isSome ∧
    (renderDataset (-500) (listMin ([((-500 : ℤ), (-160 : ℤ))].map Prod.snd))
      (-500) (listMax ([((-500 : ℤ), (-160 : ℤ))].map Prod.snd))
      [(-500, -160)]).isSome ∧
    renderDataset (-500) (listMin ([((-500 : ℤ), (-170 : ℤ))].map Prod.snd))
      (-500) (listMax ([((-500 : ℤ), (-170 : ℤ))].map Prod.snd))
      [(-500, -170)] = none :=
  ⟨(C10_pyd_lookup_safety.1 (-150)).mpr (by norm_num),
   ((C10_pyd_lookup_safety.2.2 [(-500, -160)] (-500) (-500)
      (by decide)).1 (by decide) (by decide)),
   ((C10_pyd_lookup_safety.2.2 [(-500, -170)] (-500) (-500)
      (by decide)).2 (by decide))⟩

/-! ### Composite builder (build_top_coverage_maps, source lines 214-305) -/

/-- The fixed depth palette (source line 237). -/
def nestcolor : List String :=
  ["red", "orange", "yellow", "green", "blue", "indigo", "violet", "black"]

/-- Python list indexing: non-negative indices from the front, negative
indices wrap from the back, out-of-range raises (modelled as none). -/
def pyListGet {α : Type} (l : List α) (i : ℤ) : Option α :=
  if 0 ≤ i then l.get? i.toNat
  else if 0 ≤ i + l.length then l.get? (i + l.length).toNat
  else none

/-- Color chosen for a raster at a given nesting level
(source line 259: color=nestcolor[nestlevel-1]). -/
def colorForDepth (nestlevel : ℤ) : Option String :=
  pyListGet nestcolor (nestlevel - 1)

/-- Claim C3 counterexample: at nesting depth 9 the palette lookup
nestcolor[9-1] is out of range for the 8-entry list and fails (IndexError)
instead of cycling back to the first color. -/
theorem C3_counterexample : colorForDepth 9 = none := rfl

/-- Claim C3 amended: depths 1..8 map in order onto the fixed 8-entry
palette (depth 1 gives the first color, red), but the palette is not
cycled: every depth of 9 or more makes the color lookup fail with an
index error rather than yielding a color. -/
theorem C3_depth_palette :
    (∀ d : ℤ, 1 ≤ d → d ≤ 8 → colorForDepth d = nestcolor.get? (d - 1).toNat) ∧
    colorForDepth 1 = some "red" ∧
    (∀ d : ℤ, 9 ≤ d → colorForDepth d = none) := by
  refine ⟨?_, rfl, ?_⟩
  · intro d h1 h2
    unfold colorForDepth pyListGet
    rw [if_pos (by omega)]
  · intro d h
    unfold colorForDepth pyListGet
    rw [if_pos (by omega)]
    apply List.get?_eq_none.mpr
    have hlen : nestcolor.length = 8 := rfl
    omega

/-- Witness for the amended C3 at depths 5 and 12. -/
theorem C3_depth_palette_witness :
    colorForDepth 5 = nestcolor.get? ((5 : ℤ) - 1).toNat ∧
    colorForDepth 12 = none :=
  ⟨C3_depth_palette.1 5 (by norm_num) (by norm_num),
   C3_depth_palette.2.2 12 (by norm_num)⟩

/-- RGBA pixel values as stored in the merge buffer. -/
abbrev RGBA := ℤ × ℤ × ℤ × ℤ

/-- One contributing raster: its pixel data (after .convert("RGBA"), so
the black background reads (0,0,0,255)) and its depth color. -/
structure Raster where
  data : ℤ × ℤ → RGBA
  color : RGBA

/-- One iteration of the merge loop (source lines 271-274): every pixel of
the raster that is not opaque-black background overwrites the buffer with
the raster's color. -/
def mergePixel (acc : ℤ × ℤ → RGBA) (r : Raster) : ℤ × ℤ → RGBA :=
  fun p => if r.data p ≠ (0, 0, 0, 255) then r.color else acc p

/-- The accumulated buffer after all rasters of a dataset are merged in
traversal order, starting from the all-zero array (np.zeros). -/
def mergeAll (rs : List Raster) : ℤ × ℤ → RGBA :=
  rs.foldl mergePixel (fun _ => (0, 0, 0, 0))

lemma mergePixel_bg {acc : ℤ × ℤ → RGBA} {r : Raster} {p : ℤ × ℤ}
    (h : r.data p = (0, 0, 0, 255)) : mergePixel acc r p = acc p := by
  unfold mergePixel
  rw [if_neg]
  intro hc
  exact hc h

lemma foldl_merge_bg {rs : List Raster} {p : ℤ × ℤ}
    (h : ∀ r ∈ rs, r.data p = (0, 0, 0, 255)) :
    ∀ acc : ℤ × ℤ → RGBA, rs.foldl mergePixel acc p = acc p := by
  induction rs with
  | nil => intro acc; rfl
  | cons r rest ih =>
      intro acc
      show rest.foldl mergePixel (mergePixel acc r) p = acc p
      rw [ih fun d hd => h d (List.mem_cons_of_mem r hd)]
      exact mergePixel_bg (h r (List.mem_cons_self r rest))

lemma foldl_merge_last {p : ℤ × ℤ} : ∀ (rs : List Raster)
    (acc : ℤ × ℤ → RGBA) (j : ℕ) (hj : j < rs.length),
    (rs.get ⟨j, hj⟩).data p ≠ (0, 0, 0, 255) →
    (∀ (k : ℕ) (hk : k < rs.length), j < k →
      (rs.get ⟨k, hk⟩).data p = (0, 0, 0, 255)) →
    rs.foldl mergePixel acc p = (rs.get ⟨j, hj⟩).color := by
  intro rs
  induction rs with
  | nil =>
      intro acc j hj
      exact absurd hj (by simp)
  | cons r rest ih =>
      intro acc j hj hpres hafter
      cases j with
      | zero =>
          show rest.foldl mergePixel (mergePixel acc r) p = r.color
          have hbg : ∀ d ∈ rest, d.data p = (0, 0, 0, 255) := by
            intro d hd
            rcases List.get_of_mem hd with ⟨⟨i, hi⟩, he⟩
            have hk : i + 1 < (r :: rest).length := by
              simp only [List.length_cons]
              omega
            have hres := hafter (i + 1) hk (Nat.succ_pos i)
            have hget : (r :: rest).get ⟨i + 1, hk⟩ = rest.get ⟨i, hi⟩ := rfl
            rw [hget, he] at hres
            exact hres
          rw [foldl_merge_bg hbg]
          have hpres2 : r.data p ≠ (0, 0, 0, 255) := hpres
          unfold mergePixel
          rw [if_pos hpres2]
      | succ j2 =>
          have hj2 : j2 < rest.length := by
            simp only [List.length_cons] at hj
            omega
          show rest.foldl mergePixel (mergePixel acc r) p =
            (rest.get ⟨j2, hj2⟩).color
          have hpres2 : (rest.get ⟨j2, hj2⟩).data p ≠ (0, 0, 0, 255) := hpres
          have hafter2 : ∀ (k : ℕ) (hk : k < rest.length), j2 < k →
              (rest.get ⟨k, hk⟩).data p = (0, 0, 0, 255) := by
            intro k hk hlt
            have hk1 : k + 1 < (r :: rest).length := by
              simp only [List.length_cons]
              omega
            exact hafter (k + 1) hk1 (Nat.succ_lt_succ hlt)
          exact ih (mergePixel acc r) j2 hj2 hpres2 hafter2

/-- Claim C7: in the merge loop, a pixel that is background in a raster
never overwrites the buffer, and a pixel that is present in several
rasters ends up with the color of the raster processed last among those
marking it present (so of two rasters both marking it, the
later-processed one wins). -/
theorem C7_merge_precedence :
    (∀ (acc : ℤ × ℤ → RGBA) (r : Raster) (p : ℤ × ℤ),
      r.data p = (0, 0, 0, 255) → mergePixel acc r p = acc p) ∧
    (∀ (rs : List Raster) (p : ℤ × ℤ) (j : ℕ) (hj : j < rs.length),
      (rs.get ⟨j, hj⟩).data p ≠ (0, 0, 0, 255) →
      (∀ (k : ℕ) (hk : k < rs.length), j < k →
        (rs.get ⟨k, hk⟩).data p = (0, 0, 0, 255)) →
      mergeAll rs p = (rs.get ⟨j, hj⟩).color) :=
  ⟨fun _ _ _ h => mergePixel_bg h,
   fun rs p j hj hpres hafter =>
    @foldl_merge_last p rs (fun _ => (0, 0, 0, 0)) j hj hpres hafter⟩

/-- Witness for C7: two overlapping one-color rasters; the second one
processed wins, and a background raster leaves the buffer unchanged. -/
theorem C7_merge_precedence_witness :
    mergeAll [⟨fun _ => (164, 164, 164, 255), (255, 0, 0, 255)⟩,
      ⟨fun _ => (164, 164, 164, 255), (0, 255, 0, 255)⟩] (0, 0) =
      (0, 255, 0, 255) ∧
    mergePixel (fun _ => (7, 7, 7, 7)) ⟨fun _ => (0, 0, 0, 255), (1, 2, 3, 4)⟩
      (5, 5) = (7, 7, 7, 7) :=
  ⟨C7_merge_precedence.2 _ (0, 0) 1 (by decide) (by decide)
      (fun k hk hlt => absurd hk (by
        simp only [List.length_cons, List.length_nil]
        omega)),
   C7_merge_precedence.1 _ _ (5, 5) rfl⟩

/-! ### Claim C2: placement and alpha blending onto the basemap
(source lines 283-293) -/

/-- Fixed horizontal paste offset (source: cox=-37). -/
def cox : ℤ := -37

/-- Fixed vertical paste offset (source: coy=64). -/
def coy : ℤ := 64

/-- Fixed resize target width (source: compsizeinbasemap=(1160,1208)). -/
def compW : ℤ := 1160

/-- Fixed resize target height (source: compsizeinbasemap=(1160,1208)). -/
def compH : ℤ := 1208

/-- The canvas built by compsizedshifted=Image.new('RGBA',basemap.size,
'black') followed by .paste(compsized,(cox,coy,...)): inside the paste
rectangle the resized content, elsewhere the fill color of 'black' in
RGBA mode, which is opaque black (0,0,0,255). -/
def compsizedshifted (compsized : ℤ × ℤ → RGBA) (p : ℤ × ℤ) : RGBA :=
  if cox ≤ p.1 ∧ p.1 < cox + compW ∧ coy ≤ p.2 ∧ p.2 < coy + compH then
    compsized (p.1 - cox, p.2 - coy)
  else (0, 0, 0, 255)

/-- The mask loop (source lines 287-292): every pixel of the canvas that
is not equal to (0,0,0,0) is forced to (255,255,255,128). -/
def maskPix (canvas : ℤ × ℤ → RGBA) (p : ℤ × ℤ) : RGBA :=
  if canvas p ≠ (0, 0, 0, 0) then (255, 255, 255, 128) else canvas p

/-- Exact-arithmetic model of single-channel alpha blending with weight
a/255, as performed by Image.composite through the mask's alpha band. -/
def blendChannel (a o bc : ℤ) : ℚ :=
  ((a : ℚ) * (o : ℚ) + (255 - (a : ℚ)) * (bc : ℚ)) / 255

/-- Image.composite(overlay, basemap, mask): per pixel, blend overlay over
base with the mask's alpha value. -/
def compositePix (overlay base mask : ℤ × ℤ → RGBA) (p : ℤ × ℤ) :
    ℚ × ℚ × ℚ × ℚ :=
  ((blendChannel (mask p).2.2.2 (overlay p).1 (base p).1),
   (blendChannel (mask p).2.2.2 (overlay p).2.1 (base p).2.1),
   (blendChannel (mask p).2.2.2 (overlay p).2.2.1 (base p).2.2.1),
   (blendChannel (mask p).2.2.2 (overlay p).2.2.2 (base p).2.2.2))

/-- Claim C2 evidence: pixel (0,0) lies above the paste offset coy=64, so
it is outside the pasted region even when the merged content is entirely
blank; the canvas there is opaque black (not transparent), the mask forces
its alpha to 128, and the composite no longer equals the basemap (here a
pure white basemap), contradicting the claim that basemap pixels outside
the pasted, non-blank content are left unchanged. -/
theorem C2_opaque_canvas_divergence :
    compsizedshifted (fun _ => (0, 0, 0, 0)) (0, 0) = (0, 0, 0, 255) ∧
    maskPix (compsizedshifted (fun _ => (0, 0, 0, 0))) (0, 0) =
      (255, 255, 255, 128) ∧
    compositePix (compsizedshifted (fun _ => (0, 0, 0, 0)))
      (fun _ => (255, 255, 255, 255))
      (maskPix (compsizedshifted (fun _ => (0, 0, 0, 0)))) (0, 0) ≠
      (255, 255, 255, 255) := by
  have h1 : compsizedshifted (fun _ => ((0 : ℤ), (0 : ℤ), (0 : ℤ), (0 : ℤ)))
      (0, 0) = (0, 0, 0, 255) := by
    unfold compsizedshifted cox coy compW compH
    norm_num
  have h2 : maskPix (compsizedshifted
      (fun _ => ((0 : ℤ), (0 : ℤ), (0 : ℤ), (0 : ℤ)))) (0, 0) =
      (255, 255, 255, 128) := by
    unfold maskPix
    rw [h1]
    rw [if_pos (by decide)]
  refine ⟨h1, h2, ?_⟩
  unfold compositePix
  rw [h1, h2]
  intro hEq
  have hfst := congrArg Prod.fst hEq
  unfold blendChannel at hfst
  norm_num at hfst

/-! ### Claim C9: filename parse errors are recovered locally
(parse_mbtiles_filename, source lines 45-73; get_coverage step 1,
lines 155-164).  Filenames are modelled as character lists. -/

/-- The extension checked and stripped by the parser. -/
def mbExt : List Char := ".mbtiles".data

/-- Python s.replace(old, "") for a nonempty old: remove non-overlapping
occurrences left to right.  Fueled by the string length, which suffices
because every step consumes at least one character. -/
def pyReplaceAux (pat : List Char) : ℕ → List Char → List Char
  | _, [] => []
  | 0, s => s
  | fuel + 1, c :: rest =>
      if pat.isPrefixOf (c :: rest) then
        pyReplaceAux pat fuel (List.drop (pat.length - 1) rest)
      else c :: pyReplaceAux pat fuel rest

/-- fn.replace(pat, ""). -/
def pyReplace (pat s : List Char) : List Char := pyReplaceAux pat s.length s

/-- Python b.split("-"): split on every hyphen, keeping empty pieces. -/
def splitDash : List Char → List (List Char)
  | [] => [[]]
  | c :: rest =>
      let r := splitDash rest
      if c = '-' then [] :: r
      else
        match r with
        | t :: ts => (c :: t) :: ts
        | [] => [[c]]

/-- Python "-".join. -/
def joinDash (ps : List (List Char)) : List Char := List.intercalate ['-'] ps

/-- Python s.isdigit() on ASCII strings: nonempty and all digits. -/
def pyIsdigitB (s : List Char) : Bool := !s.isEmpty && s.all Char.isDigit

/-- Python int() on an all-digit string. -/
def digitsToNat (s : List Char) : ℕ :=
  s.foldl (fun a c => 10 * a + (c.toNat - 48)) 0

/-- The parser: returns (basename, lat, lon, qy, qx), or none (after a
printed diagnostic in the source) when the filename is rejected. -/
def parse_mbtiles_filename (fn : List Char) :
    Option (List Char × ℕ × ℕ × ℕ × ℕ) :=
  if mbExt.isSuffixOf fn then
    let p := splitDash (pyReplace mbExt fn)
    if p.length < 4 then none
    else
      match p.reverse with
      | qq :: lon :: lat :: _ =>
          if pyIsdigitB lat && pyIsdigitB lon && pyIsdigitB qq then
            if qq.length = 2 then
              match qq with
              | [cy, cx] =>
                  if 4 ≤ cx.toNat - 48 ∨ 4 ≤ cy.toNat - 48 then none
                  else
                    some (joinDash (p.take (p.length - 3)), digitsToNat lat,
                      digitsToNat lon, cy.toNat - 48, cx.toNat - 48)
              | _ => none
            else none
          else none
      | _ => none
  else none

/-- The claim's well-formedness conditions, written from the claim's own
enumeration (ends in .mbtiles; at least four hyphen-delimited tokens; last
three tokens numeric; last token exactly two digits; both subgrid digits
in 0..3), for comparison against the parser. -/
def wellformedB (fn : List Char) : Bool :=
  mbExt.isSuffixOf fn &&
    (let p := splitDash (pyReplace mbExt fn)
     decide (4 ≤ p.length) &&
       match p.reverse with
       | qq :: lon :: lat :: _ =>
           pyIsdigitB lat && pyIsdigitB lon && pyIsdigitB qq &&
           decide (qq.length = 2) &&
           qq.all fun c => decide (c.toNat - 48 ≤ 3)
       | _ => false)

/-- The basename dictionary of get_coverage: insertion-ordered association
list from basename to the coordinate list, appended in file order. -/
def bdAppend (bd : List (List Char × List (ℤ × ℤ))) (key : List Char)
    (v : ℤ × ℤ) : List (List Char × List (ℤ × ℤ)) :=
  match bd with
  | [] => [(key, [v])]
  | (k, vs) :: rest =>
      if k = key then (k, vs ++ [v]) :: rest else (k, vs) :: bdAppend rest key v

/-- Step 1 of get_coverage for one directory entry: files ending in
.mbtiles are parsed; a parse failure contributes nothing. -/
def coverageStep (bd : List (List Char × List (ℤ × ℤ))) (fn : List Char) :
    List (List Char × List (ℤ × ℤ)) :=
  if mbExt.isSuffixOf fn then
    match parse_mbtiles_filename fn with
    | some (basename, lat, lon, qy, qx) =>
        bdAppend bd basename (-((lon : ℤ) * 4 + qx), -((lat : ℤ) * 4 + qy))
    | none => bd
  else bd

/-- Step 1 of get_coverage over a whole directory listing. -/
def coverageScan (fns : List (List Char)) :
    List (List Char × List (ℤ × ℤ)) :=
  fns.foldl coverageStep []

lemma parse_isSome_eq_wellformed (fn : List Char) :
    (parse_mbtiles_filename fn).isSome = wellformedB fn := by
  unfold parse_mbtiles_filename wellformedB
  by_cases hsuf : mbExt.isSuffixOf fn = true
  case neg =>
    rw [Bool.not_eq_true] at hsuf
    simp [hsuf]
  case pos =>
    simp only [hsuf, if_true, Bool.true_and]
    by_cases hlen : (splitDash (pyReplace mbExt fn)).length < 4
    case pos =>
      have h4 : ¬ (4 ≤ (splitDash (pyReplace mbExt fn)).length) := by omega
      simp [hlen, h4]
    case neg =>
      have h4 : 4 ≤ (splitDash (pyReplace mbExt fn)).length := by omega
      simp only [if_neg hlen, decide_eq_true h4, Bool.true_and]
      have hrevlen : (splitDash (pyReplace mbExt fn)).reverse.length =
          (splitDash (pyReplace mbExt fn)).length := List.length_reverse _
      rcases hrev : (splitDash (pyReplace mbExt fn)).reverse with
        _ | ⟨qq, _ | ⟨lon, _ | ⟨lat, rest⟩⟩⟩
      · rw [hrev] at hrevlen; simp at hrevlen; omega
      · rw [hrev] at hrevlen; simp at hrevlen; omega
      · rw [hrev] at hrevlen; simp at hrevlen; omega
      · by_cases hd : (pyIsdigitB lat && pyIsdigitB lon && pyIsdigitB qq) = true
        case neg =>
          rw [Bool.not_eq_true] at hd
          simp [hd]
        case pos =>
          simp only [hd, if_true, Bool.true_and]
          by_cases hq2 : qq.length = 2
          case neg =>
            simp [hq2]
          case pos =>
            rcases qq with _ | ⟨cy, _ | ⟨cx, _ | ⟨c3, t3⟩⟩⟩
            · simp at hq2
            · simp at hq2
            · simp only [decide_eq_true hq2, Bool.true_and, List.all_cons,
                List.all_nil, Bool.and_true]
              rcases Decidable.em (4 ≤ cx.toNat - 48 ∨ 4 ≤ cy.toNat - 48)
                with hr | hr
              · rw [if_pos hr]
                have h1 : ¬(cy.toNat - 48 ≤ 3) ∨ ¬(cx.toNat - 48 ≤ 3) := by
                  omega
                rcases h1 with h1 | h1
                · rw [decide_eq_false h1]
                  simp
                · rw [decide_eq_false h1]
                  simp
              · rw [if_neg hr]
                rw [decide_eq_true (show cy.toNat - 48 ≤ 3 by omega),
                  decide_eq_true (show cx.toNat - 48 ≤ 3 by omega)]
                rfl
            · simp at hq2

lemma parse_suffix {fn : List Char} {v : List Char × ℕ × ℕ × ℕ × ℕ}
    (h : parse_mbtiles_filename fn = some v) : mbExt.isSuffixOf fn = true := by
  by_cases hs : mbExt.isSuffixOf fn = true
  · exact hs
  · rw [Bool.not_eq_true] at hs
    unfold parse_mbtiles_filename at h
    rw [hs] at h
    simp at h

/-- Claim C9: the parser accepts exactly the well-formed filenames (ends
in .mbtiles, at least four hyphen-delimited tokens, last three numeric,
last exactly two digits, both digits in 0..3) and returns none otherwise;
get_coverage skips a file whose parse fails, contributing no coordinate
and raising no error, appends the decoded coordinate for every parsed
file, and in particular the malformed name layer.mbtiles contributes
nothing. -/
theorem C9_parse_error_recovery :
    (∀ fn : List Char, (parse_mbtiles_filename fn).isSome = wellformedB fn) ∧
    (∀ (bd : List (List Char × List (ℤ × ℤ))) (fn : List Char),
      parse_mbtiles_filename fn = none → coverageStep bd fn = bd) ∧
    (∀ (bd : List (List Char × List (ℤ × ℤ))) (fn bn : List Char)
      (lat lon qy qx : ℕ),
      parse_mbtiles_filename fn = some (bn, lat, lon, qy, qx) →
      coverageStep bd fn =
        bdAppend bd bn (-((lon : ℤ) * 4 + qx), -((lat : ℤ) * 4 + qy))) ∧
    parse_mbtiles_filename "layer.mbtiles".data = none ∧
    coverageScan ["layer.mbtiles".data] = [] := by
  refine ⟨parse_isSome_eq_wellformed, ?_, ?_, rfl, rfl⟩
  · intro bd fn h
    unfold coverageStep
    by_cases hs : mbExt.isSuffixOf fn = true
    · rw [hs, if_pos rfl, h]
    · rw [Bool.not_eq_true] at hs
      rw [hs]
      simp
  · intro bd fn bn lat lon qy qx h
    unfold coverageStep
    rw [parse_suffix h, if_pos rfl, h]

/-- Witness for C9: the malformed layer.mbtiles is skipped; the
well-formed layer-34-118-01.mbtiles appends its decoded coordinate. -/
theorem C9_parse_error_recovery_witness :
    coverageStep [] "layer.mbtiles".data = [] ∧
    coverageStep [] "layer-34-118-01.mbtiles".data =
      bdAppend [] "layer".data (-(118 * 4 + 1), -(34 * 4 + 0)) :=
  ⟨C9_parse_error_recovery.2.1 [] _ C9_parse_error_recovery.2.2.2.1,
   C9_parse_error_recovery.2.2.1 [] _ "layer".data 34 118 0 1 rfl⟩

end Tiles
